import Mathlib

/-!
Shallow embedding of the resilience core of the go-reverse-proxy repository:
service registry (registry.go), response cache (cache.go), health monitor
(healthmonitor part of app package), circuit breaker manager
(circuitbreaker.go), resilient router (router part) and the GET handler
(handlers.go).  Go maps are modelled as association lists, the monotone
clock as an `Int`, byte strings as `String`, and Go `int` fields as `Int`.
-/

namespace GoProxy

/-- Replace the binding of `k` in an association list, or append it when the
key is absent.  This models a Go map write `m[k] = v`. -/
def setKey {α : Type} (m : List (String × α)) (k : String) (v : α) :
    List (String × α) :=
  match m with
  | [] => [(k, v)]
  | (k', v') :: rest => if k' = k then (k, v) :: rest else (k', v') :: setKey rest k v

/-! ## Circuit breaker (circuitbreaker.go) -/

/-- BreakerState from circuitbreaker.go: Closed allows all requests, Open
blocks all requests, HalfOpen allows limited probe requests. -/
inductive BreakerState where
  | Closed
  | Open
  | HalfOpen
deriving DecidableEq

/-- Breaker record from circuitbreaker.go: per-server state, consecutive
failure count, last-open timestamp and in-flight probe counter. -/
structure Breaker where
  state : BreakerState
  failures : Int
  lastOpenTime : Int
  inFlight : Int
deriving DecidableEq

/-- FailuresToOpen constant: number of failures needed to open the breaker. -/
def FailuresToOpen : Int := 5

/-- OpenCooldown constant: how long (in seconds) to wait before transitioning
to half-open. -/
def OpenCooldown : Int := 30

/-- The breaker table of CircuitBreakerManager, keyed by server name. -/
abbrev BreakerMap : Type := List (String × Breaker)

/-- The freshly created breaker for an unknown server (Closed, zero counters). -/
def freshBreaker : Breaker :=
  { state := .Closed, failures := 0, lastOpenTime := 0, inFlight := 0 }

/-- AllowRequest from circuitbreaker.go: lazily creates a Closed breaker for
unknown servers, admits everything while Closed, admits and transitions to
HalfOpen once the open cooldown has elapsed (resetting in-flight to 0), and in
HalfOpen admits a single probe at a time by incrementing the in-flight
counter.  Returns the updated table and the admission decision. -/
def AllowRequest (cbm : BreakerMap) (serverName : String) (now : Int) :
    BreakerMap × Bool :=
  match List.lookup serverName cbm with
  | none => (setKey cbm serverName freshBreaker, true)
  | some breaker =>
    match breaker.state with
    | .Closed => (cbm, true)
    | .Open =>
        if now - breaker.lastOpenTime ≥ OpenCooldown then
          (setKey cbm serverName { breaker with state := .HalfOpen, inFlight := 0 }, true)
        else
          (cbm, false)
    | .HalfOpen =>
        if breaker.inFlight = 0 then
          (setKey cbm serverName { breaker with inFlight := breaker.inFlight + 1 }, true)
        else
          (cbm, false)

/-- OnSuccess from circuitbreaker.go: resets the failure count and closes a
HalfOpen breaker (also zeroing in-flight); unknown servers are ignored. -/
def OnSuccess (cbm : BreakerMap) (serverName : String) : BreakerMap :=
  match List.lookup serverName cbm with
  | none => cbm
  | some breaker =>
    let b1 := { breaker with failures := 0 }
    match b1.state with
    | .HalfOpen => setKey cbm serverName { b1 with state := .Closed, inFlight := 0 }
    | _ => setKey cbm serverName b1

/-- OnFailure from circuitbreaker.go: lazily creates a Closed breaker,
increments the failure count, re-opens a HalfOpen breaker recording a new open
timestamp, and opens a Closed breaker once the count reaches FailuresToOpen. -/
def OnFailure (cbm : BreakerMap) (serverName : String) (now : Int) : BreakerMap :=
  let breaker := (List.lookup serverName cbm).getD freshBreaker
  let b1 := { breaker with failures := breaker.failures + 1 }
  let b2 :=
    match b1.state with
    | .HalfOpen => { b1 with state := .Open, lastOpenTime := now, inFlight := 0 }
    | .Closed =>
        if b1.failures ≥ FailuresToOpen then
          { b1 with state := .Open, lastOpenTime := now }
        else b1
    | .Open => b1
  setKey cbm serverName b2

/-- OnRequestComplete from circuitbreaker.go: decrements the in-flight probe
counter of a HalfOpen breaker when it is positive; otherwise a no-op. -/
def OnRequestComplete (cbm : BreakerMap) (serverName : String) : BreakerMap :=
  match List.lookup serverName cbm with
  | none => cbm
  | some breaker =>
      if breaker.state = .HalfOpen ∧ breaker.inFlight > 0 then
        setKey cbm serverName { breaker with inFlight := breaker.inFlight - 1 }
      else cbm

/-! ## Registry (registry.go) -/

/-- Server record from registry.go: name, base URL and the list of path
blocks it registered (the `Prefixes` field, json tag "routes"). -/
structure Server where
  name : String
  baseURL : String
  routes : List String
deriving DecidableEq, Inhabited

/-- Go `strings.HasPrefix(s, p)`: whether `p` is a string-prefix of `s`. -/
def hasPrefixStr (s p : String) : Bool := p.data.isPrefixOf s.data

/-- The inner comparison of the first pass of ServersForPath: keep the longer
of the current best and a candidate route when the candidate matches. -/
def pickLonger (path acc p : String) : String :=
  if hasPrefixStr path p = true ∧ acc.length < p.length then p else acc

/-- First pass of ServersForPath from registry.go: scan every route of every
server and keep the longest one that is a string-prefix of the request path
(starting from the empty string). -/
def longestMatch (path : String) (servers : List Server) : String :=
  servers.foldl (fun acc s => s.routes.foldl (pickLonger path) acc) ""

/-- ServersForPath from registry.go: returns the longest registered route
matching the request path, all servers that registered exactly that route
(each at most once), and whether any matching server was found.  When the
first pass produces the empty string the second pass is skipped and the
result is empty. -/
def ServersForPath (servers : List Server) (requestPath : String) :
    String × List Server × Bool :=
  let lp := longestMatch requestPath servers
  let matchingServers :=
    if lp ≠ "" then servers.filter (fun s => s.routes.contains lp) else []
  (lp, matchingServers, decide (0 < matchingServers.length))

/-! ## Health monitor (healthmonitor.go) -/

/-- UnhealthyThreshold constant: consecutive failures before a backend is
marked unhealthy. -/
def UnhealthyThreshold : Int := 3

/-- HealthStatus record from healthmonitor.go. -/
structure HealthStatus where
  isHealthy : Bool
  lastChecked : Int
  consecutiveFailures : Int
  lastResponseTime : Int
deriving DecidableEq

/-- The health table of HealthMonitor, keyed by server name. -/
abbrev HealthMap : Type := List (String × HealthStatus)

/-- The health record lazily created for a first-time server: starts
unhealthy with zero consecutive failures. -/
def freshHealthStatus : HealthStatus :=
  { isHealthy := false, lastChecked := 0, consecutiveFailures := 0,
    lastResponseTime := 0 }

/-- updateHealthStatus from healthmonitor.go: records check time and latency;
a success clears the failure count and marks the server healthy; a failure
increments the count and marks the server unhealthy once the count reaches
UnhealthyThreshold. -/
def updateHealthStatus (hm : HealthMap) (serverName : String)
    (isHealthy : Bool) (responseTime now : Int) : HealthMap :=
  let status := (List.lookup serverName hm).getD freshHealthStatus
  let s1 := { status with lastChecked := now, lastResponseTime := responseTime }
  let s2 :=
    if isHealthy then
      { s1 with consecutiveFailures := 0, isHealthy := true }
    else
      let f := s1.consecutiveFailures + 1
      { s1 with consecutiveFailures := f,
                isHealthy := if f ≥ UnhealthyThreshold then false else s1.isHealthy }
  setKey hm serverName s2

/-- IsHealthy from healthmonitor.go: unknown servers default to unhealthy. -/
def IsHealthy (hm : HealthMap) (serverName : String) : Bool :=
  match List.lookup serverName hm with
  | none => false
  | some status => status.isHealthy

/-! ## Response cache (cache.go) -/

/-- Node from cache.go, without the intrusive list pointers: the recency
order is carried by the position in the `entries` list of `CacheState`. -/
structure Entry where
  key : String
  value : String
  sizeBytes : Int
  expiresAt : Int
deriving DecidableEq

/-- ResponseCache state: `entries` is the recency list, head first
(most-recently-used first, the last element is the LRU tail); the map
`items` of the Go code is the key-indexed view of the same list. -/
structure CacheState where
  entries : List Entry
  usedBytes : Int
  maxBytes : Int
  ttl : Int
deriving DecidableEq

/-- NewResponseCache from cache.go: empty cache with a TTL and byte budget. -/
def NewResponseCache (ttl maxBytes : Int) : CacheState :=
  { entries := [], usedBytes := 0, maxBytes := maxBytes, ttl := ttl }

/-- approximateSize from cache.go: key length + value length + a fixed
per-node overhead of 64 bytes. -/
def approximateSize (key value : String) : Int :=
  (key.length : Int) + (value.length : Int) + 64

/-- Detach the node holding `key` from the recency list (detachNode plus the
map delete; keys are unique in the list, mirroring the Go map). -/
def removeKey (l : List Entry) (key : String) : List Entry :=
  l.filter (fun e => e.key ≠ key)

/-- Get from cache.go: a missing key is a miss; an entry whose TTL deadline
has passed is detached, deleted and its size refunded, and reported as a
miss; otherwise the entry is promoted to the head (MRU) and its value
returned. -/
def CacheGet (rc : CacheState) (key : String) (now : Int) :
    Option String × CacheState :=
  match rc.entries.find? (fun e => e.key == key) with
  | none => (none, rc)
  | some node =>
      if now > node.expiresAt then
        (none, { rc with entries := removeKey rc.entries key,
                         usedBytes := rc.usedBytes - node.sizeBytes })
      else
        (some node.value, { rc with entries := node :: removeKey rc.entries key })

/-- The eviction loop of evictToCapacity, acting on the reversed recency
list (least-recently-used entry first): while the used bytes exceed the
budget and entries remain, drop the front entry and refund its size. -/
def evictFromTail (maxBytes : Int) : Int → List Entry → Int × List Entry
  | used, [] => (used, [])
  | used, e :: rest =>
      if used > maxBytes then evictFromTail maxBytes (used - e.sizeBytes) rest
      else (used, e :: rest)

/-- evictToCapacity from cache.go: while the used bytes exceed the budget and
the list is nonempty, evict the tail (the last, least-recently-used entry)
and refund its size.  Implemented by running the loop on the reversed list,
which visits the same entries in the same order as the Go loop walking the
tail pointer. -/
def evictToCapacity (maxBytes : Int) (used : Int) (l : List Entry) :
    Int × List Entry :=
  let res := evictFromTail maxBytes used l.reverse
  (res.1, res.2.reverse)

/-- The insert-or-update half of Store from cache.go, before the eviction
loop runs: overwrite an existing entry in place (adjusting the used-byte
counter by the size difference, resetting the TTL deadline and promoting to
MRU) or insert a fresh entry at the head.  The updated node keeps its key
and receives the new value, size and deadline, exactly as the Go code
mutates the found node. -/
def storeInsert (rc : CacheState) (key value : String) (now : Int) : CacheState :=
  let size := approximateSize key value
  let newNode : Entry :=
    { key := key, value := value, sizeBytes := size, expiresAt := now + rc.ttl }
  match rc.entries.find? (fun e => e.key == key) with
  | some existingNode =>
      { rc with
        entries := newNode :: removeKey rc.entries key,
        usedBytes := rc.usedBytes - existingNode.sizeBytes + size }
  | none =>
      { rc with
        entries := newNode :: rc.entries,
        usedBytes := rc.usedBytes + size }

/-- Store from cache.go: insert or update the entry, then evict from the
tail while over the byte budget. -/
def Store (rc : CacheState) (key value : String) (now : Int) : CacheState :=
  let afterInsert := storeInsert rc key value now
  let res :=
    evictToCapacity afterInsert.maxBytes afterInsert.usedBytes afterInsert.entries
  { afterInsert with entries := res.2, usedBytes := res.1 }

/-- A Store or Get request against the cache, with its timestamp. -/
inductive CacheOp where
  | store (key value : String) (now : Int)
  | get (key : String) (now : Int)

/-- Apply one cache operation, keeping only the state. -/
def applyCacheOp (rc : CacheState) : CacheOp → CacheState
  | .store k v t => Store rc k v t
  | .get k t => (CacheGet rc k t).2

/-- Run a sequence of cache operations from a starting state. -/
def runCacheOps (rc : CacheState) (ops : List CacheOp) : CacheState :=
  ops.foldl applyCacheOp rc

/-- Total size of the entries currently live in the recency list. -/
def entriesSize (l : List Entry) : Int :=
  (l.map Entry.sizeBytes).sum

/-- The cache invariant: the tracked used-byte counter equals the sum of the
live entries' sizes, every live entry's recorded size is the cost of its key
and value, and keys are unique (the recency list mirrors the Go map). -/
def WFCache (rc : CacheState) : Prop :=
  rc.usedBytes = entriesSize rc.entries ∧
  (∀ e ∈ rc.entries, e.sizeBytes = approximateSize e.key e.value) ∧
  (rc.entries.map Entry.key).Nodup

instance (rc : CacheState) : Decidable (WFCache rc) := by
  rw [WFCache]
  infer_instance

/-! ## Resilient router (router.go) -/

/-- BackendInfo from router.go: the chosen server, the computed target URL
and the matched route (the Go `Prefix` field). -/
structure BackendInfo where
  server : Server
  targetURL : String
  matchedRoute : String
deriving DecidableEq

/-- The mutable state the router reads and writes: the registry table, the
health table, the breaker table and the per-route round-robin counters. -/
structure AppState where
  servers : List Server
  healthMap : HealthMap
  breakers : BreakerMap
  roundRobinIndex : List (String × Nat)
deriving DecidableEq

/-- Go `strings.TrimPrefix(s, p)`: drop `p` from the front of `s` when it is
a string-prefix of `s`, otherwise return `s` unchanged. -/
def trimPrefixStr (s p : String) : String :=
  if hasPrefixStr s p then s.drop p.length else s

/-- The candidate filter of ResolveBackend: keep the servers that are both
healthy and admitted by their breaker, preserving order; AllowRequest is
called (and its table updates kept) for every candidate, eligible or not. -/
def filterEligible (hm : HealthMap) (cbm : BreakerMap) (now : Int)
    (candidates : List Server) : BreakerMap × List Server :=
  candidates.foldl
    (fun acc s =>
      let isH := IsHealthy hm s.name
      let step := AllowRequest acc.1 s.name now
      if isH && step.2 then (step.1, acc.2 ++ [s]) else (step.1, acc.2))
    (cbm, [])

/-- ResolveBackend from router.go: longest-route lookup in the registry,
filter by health and breaker admission, round-robin selection among the
eligible servers keyed by the matched route, and target URL construction. -/
def ResolveBackend (st : AppState) (requestPath : String) (now : Int) :
    Option BackendInfo × AppState :=
  let res := ServersForPath st.servers requestPath
  let lp := res.1
  let candidates := res.2.1
  let found := res.2.2
  if lp = "" ∨ found = false ∨ candidates = [] then
    (none, st)
  else
    let filtered := filterEligible st.healthMap st.breakers now candidates
    let healthyServers := filtered.2
    if healthyServers = [] then
      (none, { st with breakers := filtered.1 })
    else
      let counter := (List.lookup lp st.roundRobinIndex).getD 0
      let index := counter % healthyServers.length
      let rr' := setKey st.roundRobinIndex lp (counter + 1)
      let chosen := healthyServers.getD index default
      let targetURL := chosen.baseURL ++ trimPrefixStr requestPath lp
      (some { server := chosen, targetURL := targetURL, matchedRoute := lp },
       { st with breakers := filtered.1, roundRobinIndex := rr' })

/-- Iterate ResolveBackend for the same path and clock, keeping the state.
Go randomizes map iteration order on every range statement, so each call may
observe the registry's candidates in a different order: before the n-th
resolution the servers list is replaced by `orders n`, the iteration order
that call observes (the theorems require each `orders n` to be a permutation
of the registry's content). -/
def resolveStepsOrd (path : String) (now : Int) (orders : Nat → List Server)
    (st : AppState) : Nat → AppState
  | 0 => st
  | n + 1 =>
      (ResolveBackend
        { resolveStepsOrd path now orders st n with servers := orders n }
        path now).2

/-- A breaker table whose every record is Closed, so that every backend is
admitted by AllowRequest and stays admitted. -/
def closedOnly (bm : BreakerMap) : Prop :=
  ∀ n br, List.lookup n bm = some br → br.state = BreakerState.Closed

/-- Round-robin scenario fixture: first backend registered under /s1. -/
def serverA : Server := ⟨"a", "http://a", ["/s1"]⟩

/-- Round-robin scenario fixture: second backend registered under /s1. -/
def serverB : Server := ⟨"b", "http://b", ["/s1"]⟩

/-- Health table with both scenario backends healthy. -/
def healthBoth : HealthMap := [("a", ⟨true, 0, 0, 0⟩), ("b", ⟨true, 0, 0, 0⟩)]

/-- Health table where backend b has become unhealthy. -/
def healthAOnly : HealthMap := [("a", ⟨true, 0, 0, 0⟩), ("b", ⟨false, 0, 0, 0⟩)]

/-! ## GET handler (handlers.go) -/

/-- HandleGetRequest from handlers.go, with the network abstracted: `resolved`
stands for the outcome of ResolveBackend and `forwarded` for the outcome of
performRequest (status code and body, or a transport error).  Serves from the
cache on a hit; on a miss it forwards, reports the outcome to the breaker
(5xx and transport errors are failures), always calls OnRequestComplete, and
stores the body in the cache exactly when the status is 200 (http.StatusOK).
Returns the new cache, the new breaker table, and the status and body written
to the client. -/
def HandleGetRequest (cache : CacheState) (cbm : BreakerMap) (path : String)
    (now : Int) (resolved : Option BackendInfo)
    (forwarded : Option (Int × String)) :
    CacheState × BreakerMap × Int × String :=
  match CacheGet cache path now with
  | (some cachedResp, cache') => (cache', cbm, 200, cachedResp)
  | (none, cache') =>
    match resolved with
    | none => (cache', cbm, 503, "Service Unavailable")
    | some backend =>
      match forwarded with
      | none =>
          (cache', OnFailure cbm backend.server.name now, 503,
           "Service Unavailable")
      | some (status, body) =>
          let cbm1 :=
            if 500 ≤ status ∧ status ≤ 599 then
              OnFailure cbm backend.server.name now
            else
              OnSuccess cbm backend.server.name
          let cbm2 := OnRequestComplete cbm1 backend.server.name
          let cache2 := if status = 200 then Store cache' path body now else cache'
          (cache2, cbm2, status, body)

/-! ## Helper lemmas -/

theorem lookup_setKey_self {α : Type} (m : List (String × α)) (k : String) (v : α) :
    List.lookup k (setKey m k v) = some v := by
  induction m with
  | nil => simp [setKey, List.lookup]
  | cons hd tl ih =>
      obtain ⟨k', v'⟩ := hd
      by_cases h : k' = k
      · simp [setKey, h, List.lookup]
      · simp only [setKey, if_neg h, List.lookup]
        have : (k == k') = false := by
          simp [beq_iff_eq]
          exact fun hh => h hh.symm
        simp [this, ih]

theorem lookup_setKey_ne {α : Type} (m : List (String × α)) (k k' : String) (v : α)
    (h : k' ≠ k) : List.lookup k' (setKey m k v) = List.lookup k' m := by
  induction m with
  | nil =>
      have hne : (k' == k) = false := by simp [beq_iff_eq]; exact h
      simp [setKey, List.lookup, hne]
  | cons hd tl ih =>
      obtain ⟨k₀, v₀⟩ := hd
      by_cases hk : k₀ = k
      · subst hk
        have hne : (k' == k₀) = false := by simp [beq_iff_eq]; exact h
        simp [setKey, List.lookup, hne]
      · simp only [setKey, if_neg hk, List.lookup]
        cases hkk : (k' == k₀) <;> simp [ih]

theorem lookup_single {α : Type} (b : String) (br : α) :
    List.lookup b [(b, br)] = some br := by
  simp [List.lookup]

theorem setKey_single {α : Type} (b : String) (br br' : α) :
    setKey [(b, br)] b br' = [(b, br')] := by
  simp [setKey]

/-! ## Claim C1 -/

/-- Claim C1 as frozen is refuted on the code: after five failures at time 0
the breaker is Open, and the first AllowRequest at time 30 (the cooldown
boundary) is admitted and transitions to HalfOpen — but the in-flight counter
is reset to 0, not set to 1. -/
theorem C1_counterexample :
    let m5 := OnFailure (OnFailure (OnFailure (OnFailure
                (OnFailure [] "b" 0) "b" 0) "b" 0) "b" 0) "b" 0
    (AllowRequest m5 "b" 30).2 = true ∧
    List.lookup "b" (AllowRequest m5 "b" 30).1 =
      some { state := .HalfOpen, failures := 5, lastOpenTime := 0, inFlight := 0 } ∧
    (List.lookup "b" (AllowRequest m5 "b" 30).1).map Breaker.inFlight ≠ some 1 := by
  decide

/-- Claim C1 (amended): starting from an unknown backend (lazily Closed with
failure count 0), five consecutive OnFailure calls move its breaker to Open
with the fifth failure time as open timestamp; while Open, an AllowRequest
before the 30-second cooldown has elapsed returns false and leaves the table
unchanged; the first AllowRequest after the cooldown elapses returns true,
transitions the breaker to HalfOpen, and resets the in-flight counter to 0
(the admitted transition call itself is not counted as in flight). -/
theorem C1_amended (b : String) (t1 t2 t3 t4 t5 tq tq2 : Int)
    (hq : tq - t5 < OpenCooldown) (hq2 : tq2 - t5 ≥ OpenCooldown) :
    let m5 := OnFailure (OnFailure (OnFailure (OnFailure
                (OnFailure [] b t1) b t2) b t3) b t4) b t5
    List.lookup b m5 = some (⟨.Open, 5, t5, 0⟩ : Breaker) ∧
    AllowRequest m5 b tq = (m5, false) ∧
    (AllowRequest m5 b tq2).2 = true ∧
    List.lookup b (AllowRequest m5 b tq2).1 =
      some (⟨.HalfOpen, 5, t5, 0⟩ : Breaker) := by
  have e1 : OnFailure ([] : BreakerMap) b t1 = [(b, (⟨.Closed, 1, 0, 0⟩ : Breaker))] := by
    norm_num [OnFailure, setKey, freshBreaker, FailuresToOpen, List.lookup]
  have e2 : OnFailure [(b, (⟨.Closed, 1, 0, 0⟩ : Breaker))] b t2 =
      [(b, (⟨.Closed, 2, 0, 0⟩ : Breaker))] := by
    norm_num [OnFailure, lookup_single, setKey_single, FailuresToOpen]
  have e3 : OnFailure [(b, (⟨.Closed, 2, 0, 0⟩ : Breaker))] b t3 =
      [(b, (⟨.Closed, 3, 0, 0⟩ : Breaker))] := by
    norm_num [OnFailure, lookup_single, setKey_single, FailuresToOpen]
  have e4 : OnFailure [(b, (⟨.Closed, 3, 0, 0⟩ : Breaker))] b t4 =
      [(b, (⟨.Closed, 4, 0, 0⟩ : Breaker))] := by
    norm_num [OnFailure, lookup_single, setKey_single, FailuresToOpen]
  have e5 : OnFailure [(b, (⟨.Closed, 4, 0, 0⟩ : Breaker))] b t5 =
      [(b, (⟨.Open, 5, t5, 0⟩ : Breaker))] := by
    norm_num [OnFailure, lookup_single, setKey_single, FailuresToOpen]
  have hnot : ¬ (tq - t5 ≥ OpenCooldown) := by omega
  refine ⟨?_, ?_, ?_, ?_⟩
  · simp [e1, e2, e3, e4, e5, lookup_single]
  · simp [e1, e2, e3, e4, e5, AllowRequest, lookup_single, hnot]
  · simp [e1, e2, e3, e4, e5, AllowRequest, lookup_single, hq2]
  · simp [e1, e2, e3, e4, e5, AllowRequest, lookup_single, hq2, setKey_single]

/-- Witness for C1_amended at backend "b", failures at time 0, a denied query
at time 29 and an admitted query at time 30. -/
theorem C1_witness :
    (29 : Int) - 0 < OpenCooldown ∧ (30 : Int) - 0 ≥ OpenCooldown ∧
    (let m5 := OnFailure (OnFailure (OnFailure (OnFailure
                 (OnFailure [] "b" 0) "b" 0) "b" 0) "b" 0) "b" 0
     List.lookup "b" m5 = some (⟨.Open, 5, 0, 0⟩ : Breaker) ∧
     AllowRequest m5 "b" 29 = (m5, false) ∧
     (AllowRequest m5 "b" 30).2 = true ∧
     List.lookup "b" (AllowRequest m5 "b" 30).1 =
       some (⟨.HalfOpen, 5, 0, 0⟩ : Breaker)) :=
  ⟨by decide, by decide, C1_amended "b" 0 0 0 0 0 29 30 (by decide) (by decide)⟩

/-! ## Claim C4 -/

/-- Claim C4: whenever a breaker is HalfOpen with in-flight 1, AllowRequest
returns false and leaves the table unchanged (so every further call also
returns false) until OnRequestComplete is called, which brings in-flight back
to 0, after which AllowRequest admits again; and OnRequestComplete never
drives a nonnegative in-flight counter below 0. -/
theorem C4_halfopen_single_probe (m : BreakerMap) (b : String) (br : Breaker)
    (now : Int) (hb : List.lookup b m = some br) (hs : br.state = .HalfOpen)
    (hf : br.inFlight = 1) :
    AllowRequest m b now = (m, false) ∧
    (List.lookup b (OnRequestComplete m b) = some { br with inFlight := 0 } ∧
     (AllowRequest (OnRequestComplete m b) b now).2 = true) ∧
    (∀ (m' : BreakerMap) (br' br'' : Breaker),
        List.lookup b m' = some br' → 0 ≤ br'.inFlight →
        List.lookup b (OnRequestComplete m' b) = some br'' → 0 ≤ br''.inFlight) := by
  have hcond : br.state = BreakerState.HalfOpen ∧ br.inFlight > 0 := ⟨hs, by omega⟩
  have hco : OnRequestComplete m b = setKey m b { br with inFlight := 0 } := by
    simp only [OnRequestComplete, hb]
    rw [if_pos hcond, hf]
    norm_num
  refine ⟨?_, ⟨?_, ?_⟩, ?_⟩
  · simp only [AllowRequest, hb, hs]
    rw [if_neg (by rw [hf]; norm_num)]
  · rw [hco, lookup_setKey_self]
  · rw [hco]
    simp [AllowRequest, lookup_setKey_self, hs]
  · intro m' br' br'' hb' hnn hb''
    simp only [OnRequestComplete, hb'] at hb''
    by_cases hcond' : br'.state = BreakerState.HalfOpen ∧ br'.inFlight > 0
    · rw [if_pos hcond', lookup_setKey_self] at hb''
      cases hb''
      show (0 : Int) ≤ br'.inFlight - 1
      have h2 := hcond'.2
      omega
    · rw [if_neg hcond', hb'] at hb''
      cases hb''
      exact hnn

/-- Witness for C4_halfopen_single_probe at a one-entry table holding a
HalfOpen breaker with in-flight 1. -/
theorem C4_witness :
    List.lookup "b" [("b", (⟨.HalfOpen, 0, 0, 1⟩ : Breaker))] =
      some (⟨.HalfOpen, 0, 0, 1⟩ : Breaker) ∧
    (AllowRequest [("b", (⟨.HalfOpen, 0, 0, 1⟩ : Breaker))] "b" 0 =
      ([("b", (⟨.HalfOpen, 0, 0, 1⟩ : Breaker))], false) ∧
     (List.lookup "b"
          (OnRequestComplete [("b", (⟨.HalfOpen, 0, 0, 1⟩ : Breaker))] "b") =
        some { (⟨.HalfOpen, 0, 0, 1⟩ : Breaker) with inFlight := 0 } ∧
      (AllowRequest
          (OnRequestComplete [("b", (⟨.HalfOpen, 0, 0, 1⟩ : Breaker))] "b")
          "b" 0).2 = true) ∧
     (∀ (m' : BreakerMap) (br' br'' : Breaker),
        List.lookup "b" m' = some br' → 0 ≤ br'.inFlight →
        List.lookup "b" (OnRequestComplete m' "b") = some br'' →
        0 ≤ br''.inFlight)) :=
  ⟨by decide,
   C4_halfopen_single_probe _ "b" _ 0 (by decide) (by decide) (by decide)⟩

/-! ## Claim C8 -/

/-- Claim C8: a probe failure on a healthy backend increments the
consecutive-failure counter and the health flag stays true exactly while the
accumulated count is still below the threshold of 3 (it flips to unhealthy
only once 3 consecutive failures have accumulated); a successful probe on any
recorded backend makes it healthy and resets the counter to 0 (so the very
first success after being unhealthy flips it back); and IsHealthy returns
false for every name that has no health record. -/
theorem C8_health_hysteresis (hm : HealthMap) (name : String) (rt now : Int) :
    (∀ st : HealthStatus, List.lookup name hm = some st → st.isHealthy = true →
       List.lookup name (updateHealthStatus hm name false rt now) =
         some ⟨decide (st.consecutiveFailures + 1 < UnhealthyThreshold), now,
               st.consecutiveFailures + 1, rt⟩) ∧
    (∀ st : HealthStatus, List.lookup name hm = some st →
       List.lookup name (updateHealthStatus hm name true rt now) =
         some ⟨true, now, 0, rt⟩) ∧
    (List.lookup name hm = none → IsHealthy hm name = false) := by
  refine ⟨?_, ?_, ?_⟩
  · intro st hb hh
    simp only [updateHealthStatus, hb, Option.getD_some, Bool.false_eq_true,
      if_false, lookup_setKey_self]
    rcases lt_or_ge (st.consecutiveFailures + 1) UnhealthyThreshold with hlt | hge
    · rw [if_neg (by omega)]
      simp [hh, hlt]
    · rw [if_pos hge]
      simp [decide_eq_false (by omega : ¬ st.consecutiveFailures + 1 < UnhealthyThreshold)]
  · intro st hb
    simp only [updateHealthStatus, hb, Option.getD_some, if_true, lookup_setKey_self]
  · intro hnone
    simp [IsHealthy, hnone]

/-- Witness for C8_health_hysteresis: a healthy record with 2 accumulated
failures flips to unhealthy on the next failure; an unhealthy record with 3
accumulated failures recovers on the first success; an unknown name is
reported unhealthy. -/
theorem C8_witness :
    (List.lookup "a" [("a", (⟨true, 0, 2, 0⟩ : HealthStatus))] =
       some (⟨true, 0, 2, 0⟩ : HealthStatus) ∧
     (⟨true, 0, 2, 0⟩ : HealthStatus).isHealthy = true ∧
     List.lookup "a"
         (updateHealthStatus [("a", (⟨true, 0, 2, 0⟩ : HealthStatus))] "a" false 7 9) =
       some ⟨false, 9, 3, 7⟩) ∧
    (List.lookup "a" [("a", (⟨false, 0, 3, 0⟩ : HealthStatus))] =
       some (⟨false, 0, 3, 0⟩ : HealthStatus) ∧
     List.lookup "a"
         (updateHealthStatus [("a", (⟨false, 0, 3, 0⟩ : HealthStatus))] "a" true 7 9) =
       some ⟨true, 9, 0, 7⟩) ∧
    (List.lookup "z" [("a", (⟨true, 0, 2, 0⟩ : HealthStatus))] = none ∧
     IsHealthy [("a", (⟨true, 0, 2, 0⟩ : HealthStatus))] "z" = false) := by
  refine ⟨⟨by decide, by decide, ?_⟩, ⟨by decide, ?_⟩, ⟨by decide, ?_⟩⟩
  · exact (C8_health_hysteresis [("a", (⟨true, 0, 2, 0⟩ : HealthStatus))] "a" 7 9).1
      ⟨true, 0, 2, 0⟩ (by decide) (by decide)
  · exact (C8_health_hysteresis [("a", (⟨false, 0, 3, 0⟩ : HealthStatus))] "a" 7 9).2.1
      ⟨false, 0, 3, 0⟩ (by decide)
  · exact (C8_health_hysteresis [("a", (⟨true, 0, 2, 0⟩ : HealthStatus))] "z" 7 9).2.2
      (by decide)

/-! ## Claim C6 -/

theorem length_pos_of_ne_empty (s : String) (h : s ≠ "") : 0 < s.length := by
  cases hs : s.data with
  | nil =>
      exfalso
      apply h
      cases s
      simp at hs
      simp [hs]
  | cons c cs => simp [String.length, hs]

theorem pickLonger_length_le (path : String) (l : List String) (acc : String) :
    acc.length ≤ (l.foldl (pickLonger path) acc).length := by
  induction l generalizing acc with
  | nil => exact le_refl _
  | cons p rest ih =>
      rw [List.foldl_cons]
      refine le_trans ?_ (ih (pickLonger path acc p))
      rw [pickLonger]
      by_cases h : hasPrefixStr path p = true ∧ acc.length < p.length
      · rw [if_pos h]
        exact le_of_lt h.2
      · rw [if_neg h]

theorem pickLonger_mem (path : String) (l : List String) (acc : String) :
    l.foldl (pickLonger path) acc = acc ∨
      (l.foldl (pickLonger path) acc ∈ l ∧
       hasPrefixStr path (l.foldl (pickLonger path) acc) = true) := by
  induction l generalizing acc with
  | nil => left; rfl
  | cons p rest ih =>
      rw [List.foldl_cons]
      rcases ih (pickLonger path acc p) with h | h
      · rw [h, pickLonger]
        by_cases hc : hasPrefixStr path p = true ∧ acc.length < p.length
        · right
          rw [if_pos hc]
          exact ⟨List.mem_cons_self p rest, hc.1⟩
        · left
          rw [if_neg hc]
      · right
        exact ⟨List.mem_cons_of_mem p h.1, h.2⟩

theorem pickLonger_max (path : String) (l : List String) (acc q : String)
    (hmatch : hasPrefixStr path q = true) :
    q ∈ l → q.length ≤ (l.foldl (pickLonger path) acc).length := by
  induction l generalizing acc with
  | nil =>
      intro hq
      cases hq
  | cons p rest ih =>
      intro hq
      rw [List.foldl_cons]
      rcases List.mem_cons.mp hq with rfl | hq'
      · refine le_trans ?_ (pickLonger_length_le path rest _)
        rw [pickLonger]
        by_cases hc : hasPrefixStr path q = true ∧ acc.length < q.length
        · rw [if_pos hc]
        · rw [if_neg hc]
          have : ¬ acc.length < q.length := fun hlt => hc ⟨hmatch, hlt⟩
          omega
      · exact ih _ hq'

theorem longestMatch_eq_flat (path : String) (servers : List Server) :
    longestMatch path servers =
      (servers.flatMap Server.routes).foldl (pickLonger path) "" := by
  rw [longestMatch]
  generalize ("" : String) = acc
  induction servers generalizing acc with
  | nil => rfl
  | cons s rest ih =>
      rw [List.foldl_cons, List.flatMap_cons, List.foldl_append, ih]

/-- Claim C6 as frozen is refuted on the code at the degenerate empty route:
a server that registered the empty-string route matches every path (the empty
string is a string-prefix of "/x"), yet ServersForPath returns the empty
result, because the first pass only replaces the running best with a strictly
longer route and thus never selects the empty string. -/
theorem C6_counterexample :
    hasPrefixStr "/x" "" = true ∧
    "" ∈ (Server.mk "s" "u" [""]).routes ∧
    ServersForPath [Server.mk "s" "u" [""]] "/x" = ("", [], false) := by
  decide

/-- Claim C6 (amended): for every request path, if some server registered a
nonempty route that is a string-prefix of the path, then ServersForPath
returns a nonempty registered matching route of maximal length among all
matching registered routes, together with exactly those servers that
registered that exact route, and reports found; if no nonempty registered
route matches, the result is empty ("", no servers, not found).  Routes equal
to the empty string never match. -/
theorem C6_longest_route_match (servers : List Server) (path : String) :
    ((∃ s ∈ servers, ∃ q ∈ s.routes, q ≠ "" ∧ hasPrefixStr path q = true) →
       ((ServersForPath servers path).1 ≠ "" ∧
        hasPrefixStr path (ServersForPath servers path).1 = true ∧
        (∃ s ∈ servers, (ServersForPath servers path).1 ∈ s.routes) ∧
        (∀ s ∈ servers, ∀ q ∈ s.routes, hasPrefixStr path q = true →
           q.length ≤ (ServersForPath servers path).1.length) ∧
        (∀ s, s ∈ (ServersForPath servers path).2.1 ↔
           s ∈ servers ∧ (ServersForPath servers path).1 ∈ s.routes) ∧
        (ServersForPath servers path).2.2 = true)) ∧
    ((¬ ∃ s ∈ servers, ∃ q ∈ s.routes, q ≠ "" ∧ hasPrefixStr path q = true) →
       ServersForPath servers path = ("", [], false)) := by
  constructor
  · rintro ⟨s, hs, q, hqmem, hqne, hqmatch⟩
    have hqflat : q ∈ servers.flatMap Server.routes :=
      List.mem_flatMap.mpr ⟨s, hs, hqmem⟩
    have hmax : q.length ≤ (longestMatch path servers).length := by
      rw [longestMatch_eq_flat]
      exact pickLonger_max path _ "" q hqmatch hqflat
    have hlppos : 0 < (longestMatch path servers).length :=
      lt_of_lt_of_le (length_pos_of_ne_empty q hqne) hmax
    have hlpne : longestMatch path servers ≠ "" := by
      intro hcontra
      rw [hcontra] at hlppos
      simp at hlppos
    have hmem : longestMatch path servers ∈ servers.flatMap Server.routes ∧
        hasPrefixStr path (longestMatch path servers) = true := by
      rcases pickLonger_mem path (servers.flatMap Server.routes) "" with h | h
      · rw [longestMatch_eq_flat] at hlpne
        exact absurd h hlpne
      · rw [longestMatch_eq_flat]
        exact h
    have hflt : (ServersForPath servers path).2.1 =
        servers.filter (fun s => s.routes.contains (longestMatch path servers)) := by
      rw [ServersForPath]
      simp only [if_pos hlpne]
    have hmemiff : ∀ t, t ∈ (ServersForPath servers path).2.1 ↔
        t ∈ servers ∧ longestMatch path servers ∈ t.routes := by
      intro t
      rw [hflt, List.mem_filter]
      constructor
      · rintro ⟨h1, h2⟩
        exact ⟨h1, List.elem_iff.mp h2⟩
      · rintro ⟨h1, h2⟩
        exact ⟨h1, List.elem_iff.mpr h2⟩
    have hfst : (ServersForPath servers path).1 = longestMatch path servers := rfl
    obtain ⟨s₀, hs₀, hroute₀⟩ := List.mem_flatMap.mp hmem.1
    have hnonempty :
        servers.filter (fun s => s.routes.contains (longestMatch path servers)) ≠ [] := by
      intro hnil
      have hmm := (hmemiff s₀).mpr ⟨hs₀, hroute₀⟩
      rw [hflt, hnil] at hmm
      cases hmm
    refine ⟨hfst ▸ hlpne, hfst ▸ hmem.2, hfst ▸ ⟨s₀, hs₀, hroute₀⟩, ?_, ?_, ?_⟩
    · intro t ht q' hq' hq'match
      rw [hfst, longestMatch_eq_flat]
      exact pickLonger_max path _ "" q' hq'match (List.mem_flatMap.mpr ⟨t, ht, hq'⟩)
    · intro t
      rw [hfst]
      exact hmemiff t
    · rw [ServersForPath]
      simp only [if_pos hlpne]
      exact decide_eq_true (List.length_pos.mpr hnonempty)
  · intro hno
    have hlp : longestMatch path servers = "" := by
      rcases pickLonger_mem path (servers.flatMap Server.routes) "" with h | h
      · rw [longestMatch_eq_flat]
        exact h
      · by_contra hne
        rw [longestMatch_eq_flat] at hne
        obtain ⟨t, ht, hq⟩ := List.mem_flatMap.mp h.1
        exact hno ⟨t, ht, _, hq, hne, h.2⟩
    rw [ServersForPath]
    simp [hlp]

/-- Witness for C6_longest_route_match at registered routes /s1 and /s1/a and
request path /s1/a/x: the match is /s1/a with exactly its registrant. -/
theorem C6_witness :
    (∃ s ∈ [Server.mk "s1" "u1" ["/s1"], Server.mk "s1a" "u2" ["/s1/a"]],
       ∃ q ∈ s.routes, q ≠ "" ∧ hasPrefixStr "/s1/a/x" q = true) ∧
    ((ServersForPath [Server.mk "s1" "u1" ["/s1"], Server.mk "s1a" "u2" ["/s1/a"]]
        "/s1/a/x").1 ≠ "" ∧
     hasPrefixStr "/s1/a/x"
       (ServersForPath [Server.mk "s1" "u1" ["/s1"], Server.mk "s1a" "u2" ["/s1/a"]]
         "/s1/a/x").1 = true ∧
     (∃ s ∈ [Server.mk "s1" "u1" ["/s1"], Server.mk "s1a" "u2" ["/s1/a"]],
        (ServersForPath [Server.mk "s1" "u1" ["/s1"], Server.mk "s1a" "u2" ["/s1/a"]]
          "/s1/a/x").1 ∈ s.routes) ∧
     (∀ s ∈ [Server.mk "s1" "u1" ["/s1"], Server.mk "s1a" "u2" ["/s1/a"]],
        ∀ q ∈ s.routes, hasPrefixStr "/s1/a/x" q = true →
          q.length ≤ (ServersForPath [Server.mk "s1" "u1" ["/s1"],
            Server.mk "s1a" "u2" ["/s1/a"]] "/s1/a/x").1.length) ∧
     (∀ s, s ∈ (ServersForPath [Server.mk "s1" "u1" ["/s1"],
          Server.mk "s1a" "u2" ["/s1/a"]] "/s1/a/x").2.1 ↔
        s ∈ [Server.mk "s1" "u1" ["/s1"], Server.mk "s1a" "u2" ["/s1/a"]] ∧
        (ServersForPath [Server.mk "s1" "u1" ["/s1"],
          Server.mk "s1a" "u2" ["/s1/a"]] "/s1/a/x").1 ∈ s.routes) ∧
     (ServersForPath [Server.mk "s1" "u1" ["/s1"], Server.mk "s1a" "u2" ["/s1/a"]]
        "/s1/a/x").2.2 = true) ∧
    (ServersForPath [Server.mk "s1" "u1" ["/s1"], Server.mk "s1a" "u2" ["/s1/a"]]
       "/s1/a/x").1 = "/s1/a" :=
  ⟨by decide,
   (C6_longest_route_match
      [Server.mk "s1" "u1" ["/s1"], Server.mk "s1a" "u2" ["/s1/a"]]
      "/s1/a/x").1 (by decide),
   by decide⟩

/-! ## Cache helper lemmas -/

theorem entriesSize_nil : entriesSize [] = 0 := rfl

theorem entriesSize_cons (e : Entry) (l : List Entry) :
    entriesSize (e :: l) = e.sizeBytes + entriesSize l := by
  simp [entriesSize]

theorem entriesSize_append (l₁ l₂ : List Entry) :
    entriesSize (l₁ ++ l₂) = entriesSize l₁ + entriesSize l₂ := by
  simp [entriesSize]

theorem entriesSize_reverse (l : List Entry) :
    entriesSize l.reverse = entriesSize l := by
  simp [entriesSize, List.sum_reverse]

theorem entriesSize_nonneg (l : List Entry) (h : ∀ e ∈ l, 0 ≤ e.sizeBytes) :
    0 ≤ entriesSize l := by
  induction l with
  | nil => simp [entriesSize]
  | cons e rest ih =>
      rw [entriesSize_cons]
      have h1 := h e (List.mem_cons_self e rest)
      have h2 := ih (fun x hx => h x (List.mem_cons_of_mem e hx))
      omega

theorem approximateSize_nonneg (k v : String) : 0 ≤ approximateSize k v := by
  rw [approximateSize]
  have h1 : (0 : Int) ≤ (k.length : Int) := Int.natCast_nonneg _
  have h2 : (0 : Int) ≤ (v.length : Int) := Int.natCast_nonneg _
  omega

theorem find?_key_eq (l : List Entry) (k : String) (e : Entry)
    (h : l.find? (fun x => x.key == k) = some e) : e ∈ l ∧ e.key = k := by
  have hmem := List.mem_of_find?_eq_some h
  have hp := List.find?_some h
  simp only [beq_iff_eq] at hp
  exact ⟨hmem, hp⟩

theorem removeKey_key_ne (l : List Entry) (k : String) :
    ∀ e ∈ removeKey l k, e.key ≠ k := by
  intro e he
  have h2 := (List.mem_filter.mp he).2
  simpa using h2

theorem mem_removeKey (l : List Entry) (k : String) (e : Entry)
    (he : e ∈ l) (hne : e.key ≠ k) : e ∈ removeKey l k := by
  exact List.mem_filter.mpr ⟨he, by simpa using hne⟩

theorem removeKey_sublist (l : List Entry) (k : String) :
    (removeKey l k).Sublist l := List.filter_sublist _

theorem removeKey_eq_of_find?_none (l : List Entry) (k : String)
    (h : l.find? (fun x => x.key == k) = none) : removeKey l k = l := by
  apply List.filter_eq_self.mpr
  intro e he
  have h2 := List.find?_eq_none.mp h e he
  simpa using fun hcontra => h2 (by simp [hcontra])

theorem entriesSize_removeKey (l : List Entry) (k : String) (e : Entry)
    (hnd : (l.map Entry.key).Nodup)
    (hfind : l.find? (fun x => x.key == k) = some e) :
    entriesSize (removeKey l k) = entriesSize l - e.sizeBytes := by
  induction l with
  | nil => cases hfind
  | cons hd rest ih =>
      rw [List.map_cons, List.nodup_cons] at hnd
      by_cases hk : (hd.key == k) = true
      · rw [@List.find?_cons_of_pos Entry (fun x => x.key == k) hd rest hk] at hfind
        have hde : hd = e := by
          have := hfind
          injection this
        subst hde
        have hdk : hd.key = k := by simpa using hk
        have hrest : removeKey rest k = rest := by
          apply List.filter_eq_self.mpr
          intro x hx
          have hxk : x.key ≠ k := by
            intro hcontra
            apply hnd.1
            rw [← hdk] at hcontra
            exact List.mem_map.mpr ⟨x, hx, hcontra⟩
          simpa using hxk
        have hfilter : removeKey (hd :: rest) k = rest := by
          rw [removeKey, List.filter_cons]
          rw [if_neg (by simp [hdk])]
          exact hrest
        rw [hfilter, entriesSize_cons]
        ring
      · have hkf : (hd.key == k) = false := by simpa using hk
        rw [@List.find?_cons_of_neg Entry (fun x => x.key == k) hd rest (by simp [hkf])] at hfind
        have hdne : hd.key ≠ k := by simpa using hk
        have hfilter : removeKey (hd :: rest) k = hd :: removeKey rest k := by
          rw [removeKey, List.filter_cons]
          rw [if_pos (by simpa using hdne)]
          rfl
        rw [hfilter, entriesSize_cons, entriesSize_cons, ih hnd.2 hfind]
        ring

theorem nodup_keys_removeKey (l : List Entry) (k : String)
    (hnd : (l.map Entry.key).Nodup) :
    ((removeKey l k).map Entry.key).Nodup :=
  ((removeKey_sublist l k).map Entry.key).nodup hnd

theorem nodup_keys_cons_removeKey (l : List Entry) (k : String) (e : Entry)
    (he : e.key = k) (hnd : (l.map Entry.key).Nodup) :
    ((e :: removeKey l k).map Entry.key).Nodup := by
  rw [List.map_cons, List.nodup_cons]
  constructor
  · intro hmem
    obtain ⟨x, hx, hxk⟩ := List.mem_map.mp hmem
    exact removeKey_key_ne l k x hx (hxk.trans he)
  · exact nodup_keys_removeKey l k hnd

theorem evictFromTail_sum (maxB : Int) (used : Int) (r : List Entry)
    (h : used = entriesSize r) :
    (evictFromTail maxB used r).1 = entriesSize (evictFromTail maxB used r).2 := by
  induction r generalizing used with
  | nil => simpa [evictFromTail, entriesSize] using h
  | cons e rest ih =>
      simp only [evictFromTail]
      by_cases hc : used > maxB
      · rw [if_pos hc]
        apply ih
        rw [entriesSize_cons] at h
        omega
      · rw [if_neg hc]
        exact h

theorem evictFromTail_le_or_nil (maxB used : Int) (r : List Entry) :
    (evictFromTail maxB used r).1 ≤ maxB ∨ (evictFromTail maxB used r).2 = [] := by
  induction r generalizing used with
  | nil => right; simp [evictFromTail]
  | cons e rest ih =>
      simp only [evictFromTail]
      by_cases hc : used > maxB
      · rw [if_pos hc]
        exact ih _
      · rw [if_neg hc]
        left
        omega

theorem evictFromTail_sublist (maxB used : Int) (r : List Entry) :
    (evictFromTail maxB used r).2.Sublist r := by
  induction r generalizing used with
  | nil => simp [evictFromTail]
  | cons e rest ih =>
      simp only [evictFromTail]
      by_cases hc : used > maxB
      · rw [if_pos hc]
        exact (ih _).trans (List.sublist_cons_self e rest)
      · rw [if_neg hc]

theorem evictToCapacity_sum (maxB used : Int) (l : List Entry)
    (h : used = entriesSize l) :
    (evictToCapacity maxB used l).1 = entriesSize (evictToCapacity maxB used l).2 := by
  simp only [evictToCapacity, entriesSize_reverse]
  exact evictFromTail_sum maxB used l.reverse (by rw [entriesSize_reverse]; exact h)

theorem evictToCapacity_le_or_nil (maxB used : Int) (l : List Entry) :
    (evictToCapacity maxB used l).1 ≤ maxB ∨ (evictToCapacity maxB used l).2 = [] := by
  simp only [evictToCapacity]
  rcases evictFromTail_le_or_nil maxB used l.reverse with h | h
  · left; exact h
  · right; simp [h]

theorem evictToCapacity_sublist (maxB used : Int) (l : List Entry) :
    (evictToCapacity maxB used l).2.Sublist l := by
  simp only [evictToCapacity]
  have h := (evictFromTail_sublist maxB used l.reverse).reverse
  simpa using h

theorem WFCache_CacheGet (rc : CacheState) (k : String) (now : Int)
    (h : WFCache rc) : WFCache (CacheGet rc k now).2 := by
  rcases hfind : rc.entries.find? (fun x => x.key == k) with _ | e
  · simp only [CacheGet, hfind]
    exact h
  · obtain ⟨hmem, hkey⟩ := find?_key_eq _ _ _ hfind
    by_cases hexp : now > e.expiresAt
    · simp only [CacheGet, hfind, if_pos hexp]
      refine ⟨?_, ?_, ?_⟩
      · show rc.usedBytes - e.sizeBytes = entriesSize (removeKey rc.entries k)
        rw [entriesSize_removeKey rc.entries k e h.2.2 hfind, ← h.1]
      · intro x hx
        exact h.2.1 x ((removeKey_sublist _ _).subset hx)
      · exact nodup_keys_removeKey _ _ h.2.2
    · simp only [CacheGet, hfind, if_neg hexp]
      refine ⟨?_, ?_, ?_⟩
      · show rc.usedBytes = entriesSize (e :: removeKey rc.entries k)
        rw [entriesSize_cons, entriesSize_removeKey rc.entries k e h.2.2 hfind, h.1]
        ring
      · intro x hx
        rcases List.mem_cons.mp hx with rfl | hx'
        · exact h.2.1 x hmem
        · exact h.2.1 x ((removeKey_sublist _ _).subset hx')
      · exact nodup_keys_cons_removeKey _ _ _ hkey h.2.2

theorem WFCache_storeInsert (rc : CacheState) (k v : String) (now : Int)
    (h : WFCache rc) : WFCache (storeInsert rc k v now) := by
  rcases hfind : rc.entries.find? (fun x => x.key == k) with _ | e
  · simp only [storeInsert, hfind]
    refine ⟨?_, ?_, ?_⟩
    · show rc.usedBytes + approximateSize k v = entriesSize (_ :: rc.entries)
      rw [entriesSize_cons, h.1]
      ring
    · intro x hx
      rcases List.mem_cons.mp hx with rfl | hx'
      · rfl
      · exact h.2.1 x hx'
    · rw [List.map_cons, List.nodup_cons]
      refine ⟨?_, h.2.2⟩
      intro hmem
      obtain ⟨x, hx, hxk⟩ := List.mem_map.mp hmem
      have h2 := List.find?_eq_none.mp hfind x hx
      simp [hxk] at h2
  · obtain ⟨hmem, hkey⟩ := find?_key_eq _ _ _ hfind
    simp only [storeInsert, hfind]
    refine ⟨?_, ?_, ?_⟩
    · show rc.usedBytes - e.sizeBytes + approximateSize k v =
        entriesSize (_ :: removeKey rc.entries k)
      rw [entriesSize_cons, entriesSize_removeKey rc.entries k e h.2.2 hfind, h.1]
      ring
    · intro x hx
      rcases List.mem_cons.mp hx with rfl | hx'
      · rfl
      · exact h.2.1 x ((removeKey_sublist _ _).subset hx')
    · exact nodup_keys_cons_removeKey _ _ _ rfl h.2.2

theorem storeInsert_maxBytes (rc : CacheState) (k v : String) (now : Int) :
    (storeInsert rc k v now).maxBytes = rc.maxBytes := by
  rcases hfind : rc.entries.find? (fun x => x.key == k) with _ | e <;>
    simp [storeInsert, hfind]

theorem Store_eq_evicted (rc : CacheState) (k v : String) (now : Int) :
    Store rc k v now =
      { storeInsert rc k v now with
        entries := (evictToCapacity (storeInsert rc k v now).maxBytes
          (storeInsert rc k v now).usedBytes (storeInsert rc k v now).entries).2,
        usedBytes := (evictToCapacity (storeInsert rc k v now).maxBytes
          (storeInsert rc k v now).usedBytes (storeInsert rc k v now).entries).1 } := rfl

theorem WFCache_Store (rc : CacheState) (k v : String) (now : Int)
    (h : WFCache rc) : WFCache (Store rc k v now) := by
  have hai := WFCache_storeInsert rc k v now h
  rw [Store_eq_evicted]
  refine ⟨?_, ?_, ?_⟩
  · exact evictToCapacity_sum _ _ _ hai.1
  · intro x hx
    exact hai.2.1 x ((evictToCapacity_sublist _ _ _).subset hx)
  · exact ((evictToCapacity_sublist _ _ _).map Entry.key).nodup hai.2.2

theorem Store_maxBytes (rc : CacheState) (k v : String) (now : Int) :
    (Store rc k v now).maxBytes = rc.maxBytes := by
  rw [Store_eq_evicted]
  exact storeInsert_maxBytes rc k v now

theorem Store_usedBytes_le (rc : CacheState) (k v : String) (now : Int)
    (h : WFCache rc) (hmax : 0 ≤ rc.maxBytes) :
    (Store rc k v now).usedBytes ≤ rc.maxBytes := by
  have hai := WFCache_storeInsert rc k v now h
  rw [Store_eq_evicted]
  show (evictToCapacity _ _ _).1 ≤ rc.maxBytes
  rcases evictToCapacity_le_or_nil (storeInsert rc k v now).maxBytes
      (storeInsert rc k v now).usedBytes (storeInsert rc k v now).entries with hle | hnil
  · exact le_of_le_of_eq hle (storeInsert_maxBytes rc k v now)
  · have hsum := evictToCapacity_sum (storeInsert rc k v now).maxBytes
      (storeInsert rc k v now).usedBytes (storeInsert rc k v now).entries hai.1
    rw [hnil] at hsum
    rw [hsum, entriesSize_nil]
    exact hmax

theorem CacheGet_maxBytes (rc : CacheState) (k : String) (now : Int) :
    (CacheGet rc k now).2.maxBytes = rc.maxBytes := by
  rcases hfind : rc.entries.find? (fun x => x.key == k) with _ | e
  · simp [CacheGet, hfind]
  · by_cases hexp : now > e.expiresAt
    · simp [CacheGet, hfind, if_pos hexp]
    · simp [CacheGet, hfind, if_neg hexp]

theorem WFCache_runCacheOps (rc : CacheState) (ops : List CacheOp)
    (h : WFCache rc) : WFCache (runCacheOps rc ops) := by
  induction ops generalizing rc with
  | nil => exact h
  | cons op rest ih =>
      rw [runCacheOps, List.foldl_cons]
      apply ih
      cases op with
      | store k v t => exact WFCache_Store rc k v t h
      | get k t => exact WFCache_CacheGet rc k t h

theorem runCacheOps_maxBytes (rc : CacheState) (ops : List CacheOp) :
    (runCacheOps rc ops).maxBytes = rc.maxBytes := by
  induction ops generalizing rc with
  | nil => rfl
  | cons op rest ih =>
      rw [runCacheOps, List.foldl_cons]
      show (runCacheOps (applyCacheOp rc op) rest).maxBytes = rc.maxBytes
      rw [ih]
      cases op with
      | store k v t => exact Store_maxBytes rc k v t
      | get k t => exact CacheGet_maxBytes rc k t

/-! ## Claim C2 -/

/-- Claim C2: for every sequence of Store and Get operations on a cache with
a nonnegative byte budget, the tracked used-byte counter equals the sum of
the costs of the currently live entries, and immediately after any Store
returns the counter does not exceed the configured budget. -/
theorem C2_byte_accounting (ttl maxB : Int) (hmax : 0 ≤ maxB) (ops : List CacheOp) :
    ((runCacheOps (NewResponseCache ttl maxB) ops).usedBytes =
       entriesSize (runCacheOps (NewResponseCache ttl maxB) ops).entries) ∧
    (∀ k v : String, ∀ t : Int,
       (runCacheOps (NewResponseCache ttl maxB)
         (ops ++ [CacheOp.store k v t])).usedBytes ≤ maxB) := by
  have h0 : WFCache (NewResponseCache ttl maxB) := by
    refine ⟨rfl, ?_, ?_⟩
    · intro e he
      cases he
    · simp [NewResponseCache]
  have hrun := WFCache_runCacheOps _ ops h0
  refine ⟨hrun.1, ?_⟩
  intro k v t
  rw [runCacheOps, List.foldl_append]
  show (Store (runCacheOps (NewResponseCache ttl maxB) ops) k v t).usedBytes ≤ maxB
  have hmax2 : 0 ≤ (runCacheOps (NewResponseCache ttl maxB) ops).maxBytes := by
    rw [runCacheOps_maxBytes]
    exact hmax
  have hb := Store_usedBytes_le (runCacheOps (NewResponseCache ttl maxB) ops)
    k v t hrun hmax2
  exact le_of_le_of_eq hb (by rw [runCacheOps_maxBytes]; rfl)

/-- Witness for C2_byte_accounting: budget 330 with a short mixed history. -/
theorem C2_witness :
    (0 : Int) ≤ 330 ∧
    (((runCacheOps (NewResponseCache 1000 330)
         [CacheOp.store "A" "hello" 0, CacheOp.get "A" 1]).usedBytes =
       entriesSize (runCacheOps (NewResponseCache 1000 330)
         [CacheOp.store "A" "hello" 0, CacheOp.get "A" 1]).entries) ∧
     (∀ k v : String, ∀ t : Int,
        (runCacheOps (NewResponseCache 1000 330)
          ([CacheOp.store "A" "hello" 0, CacheOp.get "A" 1] ++
            [CacheOp.store k v t])).usedBytes ≤ 330)) :=
  ⟨by decide,
   C2_byte_accounting 1000 330 (by decide)
     [CacheOp.store "A" "hello" 0, CacheOp.get "A" 1]⟩

/-! ## Claim C3 -/

/-- Claim C3: with a 330-byte budget that holds exactly two 100-byte-payload
entries (each entry costs 1 + 100 + 64 = 165 bytes), after Store(A),
Store(B), Get(A), Store(C) the cache has evicted B (the true least-recently
-used entry, since Get(A) promoted A) and still holds A and C. -/
theorem C3_lru_eviction_order :
    (let vA := String.mk (List.replicate 100 'a')
     let vB := String.mk (List.replicate 100 'b')
     let vC := String.mk (List.replicate 100 'c')
     let c1 := Store (NewResponseCache 1000 330) "A" vA 0
     let c2 := Store c1 "B" vB 0
     let c3 := (CacheGet c2 "A" 0).2
     let c4 := Store c3 "C" vC 0
     (CacheGet c4 "B" 0).1 = none ∧
     (CacheGet c4 "A" 0).1 = some vA ∧
     (CacheGet c4 "C" 0).1 = some vC ∧
     c4.usedBytes = 330) := by
  decide

/-! ## Claim C5 -/

/-- Claim C5: a Get for a key whose entry's TTL deadline has passed reports a
miss and removes the entry immediately — no entry with that key remains, the
entry's size is refunded from the used-byte counter, and every other live
entry survives — with no capacity-pressure hypothesis at all. -/
theorem C5_expired_get_removes (rc : CacheState) (k : String) (now : Int)
    (e : Entry) (hfind : rc.entries.find? (fun x => x.key == k) = some e)
    (hexp : now > e.expiresAt) :
    (CacheGet rc k now).1 = none ∧
    (∀ x ∈ (CacheGet rc k now).2.entries, x.key ≠ k) ∧
    (CacheGet rc k now).2.usedBytes = rc.usedBytes - e.sizeBytes ∧
    (∀ x ∈ rc.entries, x.key ≠ k → x ∈ (CacheGet rc k now).2.entries) := by
  simp only [CacheGet, hfind, if_pos hexp]
  refine ⟨trivial, ?_, trivial, ?_⟩
  · exact removeKey_key_ne rc.entries k
  · intro x hx hne
    exact mem_removeKey rc.entries k x hx hne

/-- Witness for C5_expired_get_removes: the entry stored at time 0 with TTL
10 expires for a Get at time 11 even though the cache is far under budget. -/
theorem C5_witness :
    ((Store (NewResponseCache 10 1000) "A" "hello" 0).entries.find?
       (fun x => x.key == "A") = some ⟨"A", "hello", 70, 10⟩ ∧
     (11 : Int) > (10 : Int)) ∧
    ((CacheGet (Store (NewResponseCache 10 1000) "A" "hello" 0) "A" 11).1 = none ∧
     (∀ x ∈ (CacheGet (Store (NewResponseCache 10 1000) "A" "hello" 0) "A"
         11).2.entries, x.key ≠ "A") ∧
     (CacheGet (Store (NewResponseCache 10 1000) "A" "hello" 0) "A" 11).2.usedBytes =
       (Store (NewResponseCache 10 1000) "A" "hello" 0).usedBytes - 70 ∧
     (∀ x ∈ (Store (NewResponseCache 10 1000) "A" "hello" 0).entries, x.key ≠ "A" →
        x ∈ (CacheGet (Store (NewResponseCache 10 1000) "A" "hello" 0) "A"
          11).2.entries)) :=
  ⟨⟨by decide, by decide⟩,
   C5_expired_get_removes (Store (NewResponseCache 10 1000) "A" "hello" 0) "A" 11
     ⟨"A", "hello", 70, 10⟩ (by decide) (by decide)⟩

/-! ## Claim C10 -/

theorem storeInsert_shape (rc : CacheState) (k v : String) (now : Int) :
    ∃ rest, (storeInsert rc k v now).entries =
      (⟨k, v, approximateSize k v, now + rc.ttl⟩ : Entry) :: rest := by
  rcases hfind : rc.entries.find? (fun x => x.key == k) with _ | e
  · exact ⟨rc.entries, by simp [storeInsert, hfind]⟩
  · exact ⟨removeKey rc.entries k, by simp [storeInsert, hfind]⟩

theorem evictFromTail_clears (maxB : Int) (big : Entry)
    (hbig : big.sizeBytes > maxB) :
    ∀ (r : List Entry) (used : Int), used = entriesSize (r ++ [big]) →
      (∀ x ∈ r ++ [big], 0 ≤ x.sizeBytes) →
      evictFromTail maxB used (r ++ [big]) = (0, []) := by
  intro r
  induction r with
  | nil =>
      intro used hsum hnn
      have hs : entriesSize [big] = big.sizeBytes := by simp [entriesSize]
      rw [List.nil_append] at hsum ⊢
      simp only [evictFromTail]
      rw [if_pos (by rw [hsum, hs]; omega)]
      rw [hsum, hs]
      norm_num
  | cons x rest ih =>
      intro used hsum hnn
      rw [List.cons_append] at hsum ⊢
      have hx : 0 ≤ x.sizeBytes := hnn x (by simp)
      have hrestnn : 0 ≤ entriesSize rest :=
        entriesSize_nonneg rest (fun y hy => hnn y (by simp [hy]))
      have hsbig : entriesSize [big] = big.sizeBytes := by simp [entriesSize]
      have hused : used > maxB := by
        rw [entriesSize_cons, entriesSize_append, hsbig] at hsum
        omega
      simp only [evictFromTail]
      rw [if_pos hused]
      apply ih
      · rw [entriesSize_cons] at hsum
        omega
      · exact fun y hy => hnn y (List.mem_cons_of_mem x hy)

theorem evictToCapacity_clears (maxB used : Int) (big : Entry)
    (rest : List Entry) (hbig : big.sizeBytes > maxB)
    (hsum : used = entriesSize (big :: rest))
    (hnn : ∀ x ∈ big :: rest, 0 ≤ x.sizeBytes) :
    evictToCapacity maxB used (big :: rest) = (0, []) := by
  have h1 : evictFromTail maxB used (rest.reverse ++ [big]) = (0, []) := by
    apply evictFromTail_clears maxB big hbig rest.reverse used
    · rw [entriesSize_append, entriesSize_reverse]
      rw [entriesSize_cons] at hsum
      have hsbig : entriesSize [big] = big.sizeBytes := by simp [entriesSize]
      omega
    · intro x hx
      rcases List.mem_append.mp hx with hx' | hx'
      · exact hnn x (List.mem_cons_of_mem big (List.mem_reverse.mp hx'))
      · rw [List.mem_singleton.mp hx']
        exact hnn big (List.mem_cons_self big rest)
  simp only [evictToCapacity, List.reverse_cons, h1]
  rfl

/-- Claim C10: a Store whose entry cost exceeds the byte budget leaves the
cache completely empty — the eviction loop removes every previously live
entry and then the just-stored entry itself — so the used-byte counter is 0
and an immediately following Get for that key misses. -/
theorem C10_oversized_store_clears (rc : CacheState) (k v : String)
    (now now2 : Int) (hwf : WFCache rc)
    (hbig : approximateSize k v > rc.maxBytes) :
    (Store rc k v now).entries = [] ∧
    (Store rc k v now).usedBytes = 0 ∧
    (CacheGet (Store rc k v now) k now2).1 = none := by
  obtain ⟨rest, hshape⟩ := storeInsert_shape rc k v now
  have hai := WFCache_storeInsert rc k v now hwf
  have hnn : ∀ x ∈ (storeInsert rc k v now).entries, 0 ≤ x.sizeBytes := by
    intro x hx
    rw [hai.2.1 x hx]
    exact approximateSize_nonneg x.key x.value
  have hsum := hai.1
  rw [hshape] at hsum hnn
  have hclear : evictToCapacity (storeInsert rc k v now).maxBytes
      (storeInsert rc k v now).usedBytes (storeInsert rc k v now).entries =
      (0, []) := by
    rw [storeInsert_maxBytes, hshape]
    exact evictToCapacity_clears rc.maxBytes _ _ rest hbig hsum hnn
  have hent : (Store rc k v now).entries = [] := by
    rw [Store_eq_evicted, hclear]
  have hused : (Store rc k v now).usedBytes = 0 := by
    rw [Store_eq_evicted, hclear]
  refine ⟨hent, hused, ?_⟩
  simp [CacheGet, hent, List.find?]

set_option maxRecDepth 10000 in
/-- Witness for C10_oversized_store_clears: a 200-byte-budget cache holding
one 115-byte entry is wiped out by storing a 215-byte entry, and the stored
key itself then misses. -/
theorem C10_witness :
    (WFCache (Store (NewResponseCache 1000 200) "A"
       (String.mk (List.replicate 50 'a')) 0) ∧
     approximateSize "B" (String.mk (List.replicate 150 'b')) >
       (Store (NewResponseCache 1000 200) "A"
         (String.mk (List.replicate 50 'a')) 0).maxBytes) ∧
    ((Store (Store (NewResponseCache 1000 200) "A"
        (String.mk (List.replicate 50 'a')) 0) "B"
        (String.mk (List.replicate 150 'b')) 1).entries = [] ∧
     (Store (Store (NewResponseCache 1000 200) "A"
        (String.mk (List.replicate 50 'a')) 0) "B"
        (String.mk (List.replicate 150 'b')) 1).usedBytes = 0 ∧
     (CacheGet (Store (Store (NewResponseCache 1000 200) "A"
        (String.mk (List.replicate 50 'a')) 0) "B"
        (String.mk (List.replicate 150 'b')) 1) "B" 2).1 = none) :=
  ⟨⟨by decide, by decide⟩,
   C10_oversized_store_clears
     (Store (NewResponseCache 1000 200) "A" (String.mk (List.replicate 50 'a')) 0)
     "B" (String.mk (List.replicate 150 'b')) 1 2 (by decide) (by decide)⟩

/-! ## Claim C9 -/

/-- Claim C9 as frozen is refuted on the code: a forwarded response with
status 204 — inside the 2xx range — is not cached on a miss; the handler only
stores the body when the status is exactly 200 (http.StatusOK).  Here the
cache comes back unchanged (still empty) and the immediately repeated Get
misses. -/
theorem C9_counterexample :
    (let cache := NewResponseCache 1000 10000
     let backend : BackendInfo :=
       ⟨⟨"b1", "http://b1", ["/s1"]⟩, "http://b1/x", "/s1"⟩
     let r := HandleGetRequest cache [] "/s1/x" 0 (some backend) (some (204, "ok"))
     ((200 : Int) ≤ 204 ∧ (204 : Int) < 300) ∧
     r.2.2.1 = 204 ∧
     r.1 = cache ∧
     (CacheGet r.1 "/s1/x" 1).1 = none) := by
  decide

/-- Claim C9 (amended): in the GET handler, on a cache miss with a resolved
backend and a forwarded response, the response body is stored in the
ResponseCache keyed by the request path exactly when the response status
equals 200 (http.StatusOK); for every other status — including other 2xx
statuses — the cache is left unchanged. -/
theorem C9_get_caches_only_200 (cache : CacheState) (cbm : BreakerMap)
    (path : String) (now : Int) (backend : BackendInfo) (status : Int)
    (body : String) (hmiss : (CacheGet cache path now).1 = none) :
    (status = 200 →
       (HandleGetRequest cache cbm path now (some backend)
           (some (status, body))).1 =
         Store (CacheGet cache path now).2 path body now) ∧
    (status ≠ 200 →
       (HandleGetRequest cache cbm path now (some backend)
           (some (status, body))).1 =
         (CacheGet cache path now).2) := by
  rcases hres : CacheGet cache path now with ⟨r1, c'⟩
  rw [hres] at hmiss
  have hr1 : r1 = none := hmiss
  subst hr1
  constructor
  · intro h200
    simp only [HandleGetRequest, hres, if_pos h200]
  · intro hne
    simp only [HandleGetRequest, hres, if_neg hne]

/-- Witness for C9_get_caches_only_200 at an empty cache and a 200 response:
the body is stored under the request path. -/
theorem C9_witness :
    (CacheGet (NewResponseCache 1000 10000) "/s1/x" 0).1 = none ∧
    ((((200 : Int) = 200 →
        (HandleGetRequest (NewResponseCache 1000 10000) [] "/s1/x" 0
            (some ⟨⟨"b1", "http://b1", ["/s1"]⟩, "http://b1/x", "/s1"⟩)
            (some (200, "ok"))).1 =
          Store (CacheGet (NewResponseCache 1000 10000) "/s1/x" 0).2 "/s1/x"
            "ok" 0) ∧
      ((200 : Int) ≠ 200 →
        (HandleGetRequest (NewResponseCache 1000 10000) [] "/s1/x" 0
            (some ⟨⟨"b1", "http://b1", ["/s1"]⟩, "http://b1/x", "/s1"⟩)
            (some (200, "ok"))).1 =
          (CacheGet (NewResponseCache 1000 10000) "/s1/x" 0).2))) :=
  ⟨by decide,
   C9_get_caches_only_200 (NewResponseCache 1000 10000) [] "/s1/x" 0
     ⟨⟨"b1", "http://b1", ["/s1"]⟩, "http://b1/x", "/s1"⟩ 200 "ok" (by decide)⟩

/-! ## Claim C7 -/

theorem allowRequest_closedOnly (bm : BreakerMap) (name : String) (now : Int)
    (h : closedOnly bm) :
    (AllowRequest bm name now).2 = true ∧ closedOnly (AllowRequest bm name now).1 := by
  rcases hlk : List.lookup name bm with _ | br
  · constructor
    · simp [AllowRequest, hlk]
    · intro n br' hb'
      simp only [AllowRequest, hlk] at hb'
      by_cases hn : n = name
      · subst hn
        rw [lookup_setKey_self] at hb'
        cases hb'
        rfl
      · rw [lookup_setKey_ne bm name n freshBreaker hn] at hb'
        exact h n br' hb'
  · have hst := h name br hlk
    constructor
    · simp [AllowRequest, hlk, hst]
    · intro n br' hb'
      simp only [AllowRequest, hlk, hst] at hb'
      exact h n br' hb'

theorem resolve_step_two_healthy (bm : BreakerMap) (rr : List (String × Nat))
    (now : Int) (h : closedOnly bm) :
    ResolveBackend ⟨[serverA, serverB], healthBoth, bm, rr⟩ "/s1/x" now =
      (some ⟨[serverA, serverB].getD ((List.lookup "/s1" rr).getD 0 % 2) default,
             ([serverA, serverB].getD ((List.lookup "/s1" rr).getD 0 % 2)
               default).baseURL ++ "/x", "/s1"⟩,
       ⟨[serverA, serverB], healthBoth,
        (AllowRequest (AllowRequest bm "a" now).1 "b" now).1,
        setKey rr "/s1" ((List.lookup "/s1" rr).getD 0 + 1)⟩) := by
  have ha := allowRequest_closedOnly bm "a" now h
  have hb := allowRequest_closedOnly (AllowRequest bm "a" now).1 "b" now ha.2
  have hsfp : ServersForPath [serverA, serverB] "/s1/x" =
      ("/s1", [serverA, serverB], true) := by decide
  have hIA : IsHealthy healthBoth "a" = true := by decide
  have hIB : IsHealthy healthBoth "b" = true := by decide
  have htrim : trimPrefixStr "/s1/x" "/s1" = "/x" := by decide
  simp only [ResolveBackend, hsfp]
  rw [if_neg (by decide)]
  simp only [filterEligible, List.foldl_cons, List.foldl_nil, serverA, serverB,
    hIA, hIB, ha.1, hb.1]
  simp [ha.1, hb.1, htrim]

theorem resolve_step_one_healthy (bm : BreakerMap) (rr : List (String × Nat))
    (now : Int) (h : closedOnly bm) :
    ResolveBackend ⟨[serverA, serverB], healthAOnly, bm, rr⟩ "/s1/x" now =
      (some ⟨serverA, "http://a" ++ "/x", "/s1"⟩,
       ⟨[serverA, serverB], healthAOnly,
        (AllowRequest (AllowRequest bm "a" now).1 "b" now).1,
        setKey rr "/s1" ((List.lookup "/s1" rr).getD 0 + 1)⟩) := by
  have ha := allowRequest_closedOnly bm "a" now h
  have hb := allowRequest_closedOnly (AllowRequest bm "a" now).1 "b" now ha.2
  have hsfp : ServersForPath [serverA, serverB] "/s1/x" =
      ("/s1", [serverA, serverB], true) := by decide
  have hIA : IsHealthy healthAOnly "a" = true := by decide
  have hIB : IsHealthy healthAOnly "b" = false := by decide
  have htrim : trimPrefixStr "/s1/x" "/s1" = "/x" := by decide
  simp only [ResolveBackend, hsfp]
  rw [if_neg (by decide)]
  simp only [filterEligible, List.foldl_cons, List.foldl_nil, serverA, serverB,
    hIA, hIB, ha.1, hb.1]
  simp [ha.1, hb.1, htrim, Nat.mod_one, serverA]

theorem resolve_step_two_healthy_rev (bm : BreakerMap) (rr : List (String × Nat))
    (now : Int) (h : closedOnly bm) :
    ResolveBackend ⟨[serverB, serverA], healthBoth, bm, rr⟩ "/s1/x" now =
      (some ⟨[serverB, serverA].getD ((List.lookup "/s1" rr).getD 0 % 2) default,
             ([serverB, serverA].getD ((List.lookup "/s1" rr).getD 0 % 2)
               default).baseURL ++ "/x", "/s1"⟩,
       ⟨[serverB, serverA], healthBoth,
        (AllowRequest (AllowRequest bm "b" now).1 "a" now).1,
        setKey rr "/s1" ((List.lookup "/s1" rr).getD 0 + 1)⟩) := by
  have ha := allowRequest_closedOnly bm "b" now h
  have hb := allowRequest_closedOnly (AllowRequest bm "b" now).1 "a" now ha.2
  have hsfp : ServersForPath [serverB, serverA] "/s1/x" =
      ("/s1", [serverB, serverA], true) := by decide
  have hIA : IsHealthy healthBoth "a" = true := by decide
  have hIB : IsHealthy healthBoth "b" = true := by decide
  have htrim : trimPrefixStr "/s1/x" "/s1" = "/x" := by decide
  simp only [ResolveBackend, hsfp]
  rw [if_neg (by decide)]
  simp only [filterEligible, List.foldl_cons, List.foldl_nil, serverA, serverB,
    hIA, hIB, ha.1, hb.1]
  simp [ha.1, hb.1, htrim]

theorem resolve_step_one_healthy_rev (bm : BreakerMap) (rr : List (String × Nat))
    (now : Int) (h : closedOnly bm) :
    ResolveBackend ⟨[serverB, serverA], healthAOnly, bm, rr⟩ "/s1/x" now =
      (some ⟨serverA, "http://a" ++ "/x", "/s1"⟩,
       ⟨[serverB, serverA], healthAOnly,
        (AllowRequest (AllowRequest bm "b" now).1 "a" now).1,
        setKey rr "/s1" ((List.lookup "/s1" rr).getD 0 + 1)⟩) := by
  have ha := allowRequest_closedOnly bm "b" now h
  have hb := allowRequest_closedOnly (AllowRequest bm "b" now).1 "a" now ha.2
  have hsfp : ServersForPath [serverB, serverA] "/s1/x" =
      ("/s1", [serverB, serverA], true) := by decide
  have hIA : IsHealthy healthAOnly "a" = true := by decide
  have hIB : IsHealthy healthAOnly "b" = false := by decide
  have htrim : trimPrefixStr "/s1/x" "/s1" = "/x" := by decide
  simp only [ResolveBackend, hsfp]
  rw [if_neg (by decide)]
  simp only [filterEligible, List.foldl_cons, List.foldl_nil, serverA, serverB,
    hIA, hIB, ha.1, hb.1]
  simp [ha.1, hb.1, htrim, Nat.mod_one, serverA]

theorem perm_two {α : Type} (l : List α) (a b : α) (h : l.Perm [a, b]) :
    l = [a, b] ∨ l = [b, a] := by
  have hlen : l.length = 2 := by simpa using h.length_eq
  rcases l with _ | ⟨x, rest⟩
  · simp at hlen
  rcases rest with _ | ⟨y, rest2⟩
  · simp at hlen
  rcases rest2 with _ | ⟨z, rest3⟩
  · have hx : x ∈ ([a, b] : List α) := h.mem_iff.mp (by simp)
    have hx2 : x = a ∨ x = b := by simpa using hx
    rcases hx2 with hxa | hxb
    · subst hxa
      have h3 : y = b := by simpa using List.perm_singleton.mp h.cons_inv
      subst h3
      exact Or.inl rfl
    · subst hxb
      have hswap : ([a, x] : List α).Perm [x, a] := List.Perm.swap x a []
      have h3 : y = a := by
        simpa using List.perm_singleton.mp (h.trans hswap).cons_inv
      subst h3
      exact Or.inr rfl
  · simp at hlen

theorem resolveStepsOrd_inv (bm : BreakerMap) (rr : List (String × Nat))
    (now : Int) (h : closedOnly bm) (orders : Nat → List Server)
    (horders : ∀ n, (orders n).Perm [serverA, serverB]) (j : Nat) :
    (resolveStepsOrd "/s1/x" now orders
      ⟨[serverA, serverB], healthAOnly, bm, rr⟩ j).healthMap = healthAOnly ∧
    closedOnly (resolveStepsOrd "/s1/x" now orders
      ⟨[serverA, serverB], healthAOnly, bm, rr⟩ j).breakers := by
  induction j with
  | zero => exact ⟨rfl, h⟩
  | succ n ih =>
      obtain ⟨hm, hok⟩ := ih
      simp only [resolveStepsOrd]
      rcases perm_two (orders n) serverA serverB (horders n) with hord | hord
      · rw [hord, hm, resolve_step_one_healthy _ _ now hok]
        refine ⟨rfl, ?_⟩
        have ha' := allowRequest_closedOnly _ "a" now hok
        exact (allowRequest_closedOnly _ "b" now ha'.2).2
      · rw [hord, hm, resolve_step_one_healthy_rev _ _ now hok]
        refine ⟨rfl, ?_⟩
        have ha' := allowRequest_closedOnly _ "b" now hok
        exact (allowRequest_closedOnly _ "a" now ha'.2).2

/-- Claim C7 as frozen is refuted on the code: ServersForPath builds its
candidate slice by ranging over a Go map, whose iteration order is
randomized on every range statement, so two successive resolutions may
observe the two registered backends in opposite orders.  Both backends
healthy and admitted, counter 0 into order [a, b] picks a, and counter 1
into the permuted order [b, a] picks a again — successive ResolveBackend
calls need not alternate. -/
theorem C7_counterexample :
    ([serverB, serverA] : List Server).Perm [serverA, serverB] ∧
    (let st1 : AppState := ⟨[serverA, serverB], healthBoth, [], []⟩
     let r1 := ResolveBackend st1 "/s1/x" 0
     let st2 : AppState := { r1.2 with servers := [serverB, serverA] }
     let r2 := ResolveBackend st2 "/s1/x" 0
     r1.1.map (fun bi => bi.server) = some serverA ∧
     r2.1.map (fun bi => bi.server) = some serverA) :=
  ⟨List.Perm.swap serverA serverB [], by decide⟩

/-- Claim C7 (amended): with exactly two backends registered under the same
longest-matched route /s1, both healthy and admitted by their breakers
(every breaker record Closed), two successive ResolveBackend calls that
observe the registry's candidates in the same iteration order return
different backends of the pair (the per-route counter advances by one per
call and is taken modulo the eligible-set size); because Go randomizes map
iteration order per call, successive calls observing different orders may
repeat a backend.  Once backend b is unhealthy, every subsequent resolution
returns only the remaining backend a, under every per-call iteration
order. -/
theorem C7_round_robin_amended (bm : BreakerMap) (rr : List (String × Nat))
    (now : Int) (h : closedOnly bm) :
    (∀ ord : List Server, ord.Perm [serverA, serverB] →
       ((ResolveBackend ⟨ord, healthBoth, bm, rr⟩ "/s1/x" now).1.map
           (fun bi => bi.server) ≠
        (ResolveBackend (ResolveBackend ⟨ord, healthBoth, bm, rr⟩ "/s1/x" now).2
            "/s1/x" now).1.map (fun bi => bi.server)) ∧
       ((ResolveBackend ⟨ord, healthBoth, bm, rr⟩ "/s1/x" now).1.map
           (fun bi => bi.server) = some serverA ∨
        (ResolveBackend ⟨ord, healthBoth, bm, rr⟩ "/s1/x" now).1.map
           (fun bi => bi.server) = some serverB) ∧
       ((ResolveBackend (ResolveBackend ⟨ord, healthBoth, bm, rr⟩ "/s1/x" now).2
            "/s1/x" now).1.map (fun bi => bi.server) = some serverA ∨
        (ResolveBackend (ResolveBackend ⟨ord, healthBoth, bm, rr⟩ "/s1/x" now).2
            "/s1/x" now).1.map (fun bi => bi.server) = some serverB)) ∧
    (∀ orders : Nat → List Server,
       (∀ n, (orders n).Perm [serverA, serverB]) →
       ∀ j : Nat,
         ((ResolveBackend
             { resolveStepsOrd "/s1/x" now orders
                 ⟨[serverA, serverB], healthAOnly, bm, rr⟩ j
               with servers := orders j } "/s1/x" now).1.map
            (fun bi => bi.server)) = some serverA) := by
  constructor
  · intro ord hperm
    rcases perm_two ord serverA serverB hperm with hord | hord <;> subst hord
    · have ha := allowRequest_closedOnly bm "a" now h
      have hb := allowRequest_closedOnly (AllowRequest bm "a" now).1 "b" now ha.2
      rcases Nat.mod_two_eq_zero_or_one ((List.lookup "/s1" rr).getD 0) with hk | hk
      · have h2 : ((List.lookup "/s1" rr).getD 0 + 1) % 2 = 1 := by omega
        have e1 : (ResolveBackend ⟨[serverA, serverB], healthBoth, bm, rr⟩
            "/s1/x" now).1.map (fun bi => bi.server) = some serverA := by
          rw [resolve_step_two_healthy bm rr now h]
          simp [hk]
        have e2 : (ResolveBackend
            (ResolveBackend ⟨[serverA, serverB], healthBoth, bm, rr⟩ "/s1/x" now).2
            "/s1/x" now).1.map (fun bi => bi.server) = some serverB := by
          rw [resolve_step_two_healthy bm rr now h,
            resolve_step_two_healthy _ _ now hb.2, lookup_setKey_self]
          simp [h2]
        exact ⟨by rw [e1, e2]; decide, Or.inl e1, Or.inr e2⟩
      · have h2 : ((List.lookup "/s1" rr).getD 0 + 1) % 2 = 0 := by omega
        have e1 : (ResolveBackend ⟨[serverA, serverB], healthBoth, bm, rr⟩
            "/s1/x" now).1.map (fun bi => bi.server) = some serverB := by
          rw [resolve_step_two_healthy bm rr now h]
          simp [hk]
        have e2 : (ResolveBackend
            (ResolveBackend ⟨[serverA, serverB], healthBoth, bm, rr⟩ "/s1/x" now).2
            "/s1/x" now).1.map (fun bi => bi.server) = some serverA := by
          rw [resolve_step_two_healthy bm rr now h,
            resolve_step_two_healthy _ _ now hb.2, lookup_setKey_self]
          simp [h2]
        exact ⟨by rw [e1, e2]; decide, Or.inr e1, Or.inl e2⟩
    · have ha := allowRequest_closedOnly bm "b" now h
      have hb := allowRequest_closedOnly (AllowRequest bm "b" now).1 "a" now ha.2
      rcases Nat.mod_two_eq_zero_or_one ((List.lookup "/s1" rr).getD 0) with hk | hk
      · have h2 : ((List.lookup "/s1" rr).getD 0 + 1) % 2 = 1 := by omega
        have e1 : (ResolveBackend ⟨[serverB, serverA], healthBoth, bm, rr⟩
            "/s1/x" now).1.map (fun bi => bi.server) = some serverB := by
          rw [resolve_step_two_healthy_rev bm rr now h]
          simp [hk]
        have e2 : (ResolveBackend
            (ResolveBackend ⟨[serverB, serverA], healthBoth, bm, rr⟩ "/s1/x" now).2
            "/s1/x" now).1.map (fun bi => bi.server) = some serverA := by
          rw [resolve_step_two_healthy_rev bm rr now h,
            resolve_step_two_healthy_rev _ _ now hb.2, lookup_setKey_self]
          simp [h2]
        exact ⟨by rw [e1, e2]; decide, Or.inr e1, Or.inl e2⟩
      · have h2 : ((List.lookup "/s1" rr).getD 0 + 1) % 2 = 0 := by omega
        have e1 : (ResolveBackend ⟨[serverB, serverA], healthBoth, bm, rr⟩
            "/s1/x" now).1.map (fun bi => bi.server) = some serverA := by
          rw [resolve_step_two_healthy_rev bm rr now h]
          simp [hk]
        have e2 : (ResolveBackend
            (ResolveBackend ⟨[serverB, serverA], healthBoth, bm, rr⟩ "/s1/x" now).2
            "/s1/x" now).1.map (fun bi => bi.server) = some serverB := by
          rw [resolve_step_two_healthy_rev bm rr now h,
            resolve_step_two_healthy_rev _ _ now hb.2, lookup_setKey_self]
          simp [h2]
        exact ⟨by rw [e1, e2]; decide, Or.inl e1, Or.inr e2⟩
  · intro orders horders j
    obtain ⟨hm, hok⟩ := resolveStepsOrd_inv bm rr now h orders horders j
    rcases perm_two (orders j) serverA serverB (horders j) with hord | hord
    · rw [hord]
      show Option.map (fun bi => bi.server)
        (ResolveBackend
          ⟨[serverA, serverB],
           (resolveStepsOrd "/s1/x" now orders
             ⟨[serverA, serverB], healthAOnly, bm, rr⟩ j).healthMap,
           (resolveStepsOrd "/s1/x" now orders
             ⟨[serverA, serverB], healthAOnly, bm, rr⟩ j).breakers,
           (resolveStepsOrd "/s1/x" now orders
             ⟨[serverA, serverB], healthAOnly, bm, rr⟩ j).roundRobinIndex⟩
          "/s1/x" now).1 = some serverA
      rw [hm, resolve_step_one_healthy _ _ now hok]
      simp
    · rw [hord]
      show Option.map (fun bi => bi.server)
        (ResolveBackend
          ⟨[serverB, serverA],
           (resolveStepsOrd "/s1/x" now orders
             ⟨[serverA, serverB], healthAOnly, bm, rr⟩ j).healthMap,
           (resolveStepsOrd "/s1/x" now orders
             ⟨[serverA, serverB], healthAOnly, bm, rr⟩ j).breakers,
           (resolveStepsOrd "/s1/x" now orders
             ⟨[serverA, serverB], healthAOnly, bm, rr⟩ j).roundRobinIndex⟩
          "/s1/x" now).1 = some serverA
      rw [hm, resolve_step_one_healthy_rev _ _ now hok]
      simp

/-- Witness for C7_round_robin_amended: empty breaker table and fresh
round-robin counters; under the constant iteration order [a, b], the two
successive calls return different backends of the pair, and with b unhealthy
every call returns a. -/
theorem C7_witness :
    closedOnly [] ∧
    ([serverA, serverB] : List Server).Perm [serverA, serverB] ∧
    (((ResolveBackend ⟨[serverA, serverB], healthBoth, [], []⟩ "/s1/x" 0).1.map
        (fun bi => bi.server) ≠
      (ResolveBackend
          (ResolveBackend ⟨[serverA, serverB], healthBoth, [], []⟩ "/s1/x" 0).2
          "/s1/x" 0).1.map (fun bi => bi.server)) ∧
     ((ResolveBackend ⟨[serverA, serverB], healthBoth, [], []⟩ "/s1/x" 0).1.map
         (fun bi => bi.server) = some serverA ∨
      (ResolveBackend ⟨[serverA, serverB], healthBoth, [], []⟩ "/s1/x" 0).1.map
         (fun bi => bi.server) = some serverB) ∧
     ((ResolveBackend
          (ResolveBackend ⟨[serverA, serverB], healthBoth, [], []⟩ "/s1/x" 0).2
          "/s1/x" 0).1.map (fun bi => bi.server) = some serverA ∨
      (ResolveBackend
          (ResolveBackend ⟨[serverA, serverB], healthBoth, [], []⟩ "/s1/x" 0).2
          "/s1/x" 0).1.map (fun bi => bi.server) = some serverB)) ∧
    (∀ j : Nat,
       ((ResolveBackend
           { resolveStepsOrd "/s1/x" 0 (fun _ => [serverA, serverB])
               ⟨[serverA, serverB], healthAOnly, [], []⟩ j
             with servers := [serverA, serverB] } "/s1/x" 0).1.map
          (fun bi => bi.server)) = some serverA) := by
  have hempty : closedOnly [] := by
    intro n br hb
    simp [List.lookup] at hb
  have hthm := C7_round_robin_amended [] [] 0 hempty
  refine ⟨hempty, List.Perm.refl _,
    hthm.1 [serverA, serverB] (List.Perm.refl _), ?_⟩
  intro j
  exact hthm.2 (fun _ => [serverA, serverB]) (fun _ => List.Perm.refl _) j

end GoProxy

